import Mathlib

/-!
# Verification of the go-mfp proxy subsystem

A shallow embedding of the parts of OpenPrinting/go-mfp that the
specification's testable properties talk about:

* the `Peeker` body wrapper (`transport/peeker.go`);
* the Content-Length adjustment of the IPP pipeline
  (`cmd/mfp-proxy/proxy/proxy.go`, `doIPPreq` / `doIPPrsp`);
* the auto-TLS detection and listener state machine (`transport/autotls.go`);
* the HTTP header hygiene and dispatch logic of the proxy
  (`cmd/mfp-proxy/proxy/proxy.go`);
* the trace record emission of the IPP pipeline.

Byte streams are modelled as `List Nat`; Go strings as Lean `String`
(ASCII case mapping only, which covers every string the proxy compares).
-/

namespace GoMfp

/-! ## Peeker (transport/peeker.go)

`Peeker` wraps an `io.ReadCloser`.  While recording (`rewound = false`),
`Read` is an `io.TeeReader(in, &buf)`: bytes flow from the underlying
stream and are appended to `buf`.  After `Rewind`/`Replace`
(`rewound = true`), `Read` is an `io.MultiReader(&buf, in)`: it drains
`buf` first, then the underlying stream.  `pos` counts every byte ever
returned by `Read`. -/

structure Peeker where
  inStream : List Nat
  buf : List Nat
  rewound : Bool
  pos : Nat
  deriving Repr, DecidableEq

namespace Peeker

/-- `transport.NewPeeker`: wrap a stream, recording mode, empty buffer. -/
def NewPeeker (b : List Nat) : Peeker :=
  { inStream := b, buf := [], rewound := false, pos := 0 }

/-- One call to `Peeker.Read` with a buffer of size `n`.

In recording mode it reads from the underlying stream and tees the bytes
into `buf` (the `io.TeeReader` installed by `NewPeeker`); after
`Rewind`/`Replace` it reads from `buf` first, then from the underlying
stream (the installed `io.MultiReader`, which serves one sub-reader per
call).  `pos` grows by the number of bytes returned. -/
def read (p : Peeker) (n : Nat) : List Nat × Peeker :=
  if p.rewound then
    if p.buf.isEmpty then
      let chunk := p.inStream.take n
      (chunk, { p with inStream := p.inStream.drop n, pos := p.pos + chunk.length })
    else
      let chunk := p.buf.take n
      (chunk, { p with buf := p.buf.drop n, pos := p.pos + chunk.length })
  else
    let chunk := p.inStream.take n
    (chunk, { p with inStream := p.inStream.drop n,
                     buf := p.buf ++ chunk,
                     pos := p.pos + chunk.length })

/-- `Peeker.Count`: total bytes returned by all preceding reads. -/
def Count (p : Peeker) : Nat := p.pos

/-- `Peeker.Bytes`: the recorded buffer. -/
def Bytes (p : Peeker) : List Nat := p.buf

/-- `Peeker.Rewind`: switch the output to `io.MultiReader(&buf, in)`. -/
def Rewind (p : Peeker) : Peeker :=
  { p with rewound := true }

/-- `Peeker.Replace`: reset the buffer to `data`, then switch the output
to `io.MultiReader(&buf, in)`. -/
def Replace (p : Peeker) (data : List Nat) : Peeker :=
  { p with buf := data, rewound := true }

/-- `k` successive single-byte calls to `Peeker.Read`, collecting the
returned bytes. -/
def readK : Peeker → Nat → List Nat × Peeker
  | p, 0 => ([], p)
  | p, k + 1 =>
    let r := p.read 1
    let r2 := r.2.readK k
    (r.1 ++ r2.1, r2.2)

/-- Drain the Peeker through repeated `Read` calls, with explicit fuel. -/
def drainFuel : Nat → Peeker → List Nat
  | 0, _ => []
  | fuel + 1, p =>
    let r := p.read 1
    if r.1.isEmpty then [] else r.1 ++ drainFuel fuel r.2

/-- Drain the Peeker to end of stream, as `io.ReadAll` would: repeated
`Read` calls until a read returns no bytes. -/
def drain (p : Peeker) : List Nat :=
  drainFuel (p.buf.length + p.inStream.length + 1) p

/-- The canonical recording-mode state over body `B` after `t` bytes
have been returned. -/
def recAt (b : List Nat) (t : Nat) : Peeker :=
  { inStream := b.drop t, buf := b.take t, rewound := false, pos := t }

theorem recAt_zero (b : List Nat) : NewPeeker b = recAt b 0 := rfl

theorem read_one_recAt (b : List Nat) (t : Nat) (ht : t < b.length) :
    (recAt b t).read 1 = ((b.drop t).take 1, recAt b (t + 1)) := by
  have h3 : b.take t ++ (b.drop t).take 1 = b.take (t + 1) :=
    (List.take_add b t 1).symm
  have h2 : (b.drop t).drop 1 = b.drop (t + 1) := by
    rw [List.drop_drop, Nat.add_comm]
  have h4 : ((b.drop t).take 1).length = 1 := by
    rw [List.length_take, List.length_drop]
    omega
  simp [read, recAt, h2, h3, h4]

theorem readK_recAt (b : List Nat) (t k : Nat) (h : t + k ≤ b.length) :
    (recAt b t).readK k = ((b.drop t).take k, recAt b (t + k)) := by
  induction k generalizing t with
  | zero => simp [readK]
  | succ k ih =>
    have ht : t < b.length := by omega
    have h2 : (t + 1) + k ≤ b.length := by omega
    have hdd : (b.drop t).drop 1 = b.drop (t + 1) := by
      rw [List.drop_drop, Nat.add_comm]
    have hout : (b.drop t).take 1 ++ ((b.drop t).drop 1).take k =
        (b.drop t).take (1 + k) := (List.take_add (b.drop t) 1 k).symm
    have harith : t + 1 + k = t + (k + 1) := by omega
    have harith2 : 1 + k = k + 1 := by omega
    simp only [readK, read_one_recAt b t ht, ih (t + 1) h2, harith]
    rw [← hdd, hout, harith2]

theorem readK_NewPeeker (b : List Nat) (k : Nat) (h : k ≤ b.length) :
    (NewPeeker b).readK k = (b.take k, recAt b k) := by
  rw [recAt_zero]
  have := readK_recAt b 0 k (by omega)
  simpa using this

/-- In rewound mode, draining yields the buffer followed by the
underlying stream. -/
theorem drainFuel_rewound (fuel : Nat) (p : Peeker) (hrw : p.rewound = true)
    (hfuel : p.buf.length + p.inStream.length < fuel) :
    drainFuel fuel p = p.buf ++ p.inStream := by
  induction fuel generalizing p with
  | zero => omega
  | succ fuel ih =>
    match hb : p.buf, hs : p.inStream with
    | [], [] =>
      simp [drainFuel, read, hrw, hb, hs]
    | [], x :: xs =>
      have hread : p.read 1 =
          ([x], { p with inStream := xs, pos := p.pos + 1 }) := by
        simp [read, hrw, hb, hs]
      have hrec := ih { p with inStream := xs, pos := p.pos + 1 }
        (by simpa using hrw)
        (by simp only [hb] at hfuel ⊢; simp only [hs] at hfuel; simp at hfuel ⊢; omega)
      simp only [drainFuel, hread, List.isEmpty_cons, Bool.false_eq_true, if_false, hrec]
      simp [hb]
    | y :: ys, _ =>
      have hread : p.read 1 =
          ([y], { p with buf := ys, pos := p.pos + 1 }) := by
        simp [read, hrw, hb]
      have hrec := ih { p with buf := ys, pos := p.pos + 1 }
        (by simpa using hrw)
        (by simp only [hb] at hfuel; simp at hfuel ⊢; omega)
      simp only [drainFuel, hread, List.isEmpty_cons, Bool.false_eq_true, if_false, hrec]
      simp [hb, hs]

theorem drain_rewound (p : Peeker) (hrw : p.rewound = true) :
    p.drain = p.buf ++ p.inStream :=
  drainFuel_rewound _ p hrw (by omega)

end Peeker

/-! ## Content-Length adjustment (cmd/mfp-proxy/proxy/proxy.go)

`doIPPreq` sets `out.ContentLength = in.ContentLength` and, when it is
nonnegative, adds `len(msg2bytes)` and subtracts `peeker.Count()`;
`doIPPrsp` performs the same adjustment on `rsp.ContentLength`. -/

/-- The Content-Length adjustment shared by `doIPPreq` and `doIPPrsp`:
copy the incoming length and, if it is known (`>= 0`), add the length of
the re-encoded message bytes and subtract the Peeker's byte count. -/
def adjustContentLength (inLen : Int) (encLen : Nat) (count : Int) : Int :=
  if 0 ≤ inLen then inLen + encLen - count else inLen

/-- The outgoing Content-Length computed by `doIPPreq`, with the Peeker
in the state the code reads `Count()` from (right after `Replace`). -/
def doIPPreqContentLength (inLen : Int) (msg2bytes : List Nat) (p : Peeker) : Int :=
  adjustContentLength inLen msg2bytes.length (p.Count : Int)

theorem Count_Replace_readK (b r : List Nat) (k : Nat) (hk : k ≤ b.length) :
    ((((Peeker.NewPeeker b).readK k).2).Replace r).Count = k := by
  rw [Peeker.readK_NewPeeker b k hk]
  rfl

/-- C1: for a request body `b` whose IPP decoder consumed the first `k`
bytes through the Peeker and whose re-encoded message is `r`, the
outgoing Content-Length equals `inLen + |r| - Count()` when the incoming
length is known, and stays the (negative) incoming value when unknown.
The same function models the analogous adjustment in `doIPPrsp`. -/
theorem content_length_adjustment (b r : List Nat) (k : Nat) (inLen : Int)
    (hk : k ≤ b.length) :
    (0 ≤ inLen →
      doIPPreqContentLength inLen r ((((Peeker.NewPeeker b).readK k).2).Replace r) =
        inLen + r.length - k) ∧
    (inLen < 0 →
      doIPPreqContentLength inLen r ((((Peeker.NewPeeker b).readK k).2).Replace r) =
        inLen ∧
      doIPPreqContentLength inLen r ((((Peeker.NewPeeker b).readK k).2).Replace r) < 0) := by
  have hcount := Count_Replace_readK b r k hk
  constructor
  · intro hpos
    rw [doIPPreqContentLength, hcount, adjustContentLength, if_pos hpos]
  · intro hneg
    have : ¬ (0 ≤ inLen) := by omega
    rw [doIPPreqContentLength, hcount, adjustContentLength, if_neg this]
    exact ⟨rfl, hneg⟩

/-- C1 witness: concrete instances for a known and an unknown length. -/
theorem content_length_adjustment_witness :
    ((0 : Int) ≤ 10 →
      doIPPreqContentLength 10 [9, 9]
        ((((Peeker.NewPeeker [1, 2, 3]).readK 2).2).Replace [9, 9]) =
        10 + ([9, 9] : List Nat).length - 2) ∧
    ((10 : Int) < 0 →
      doIPPreqContentLength 10 [9, 9]
        ((((Peeker.NewPeeker [1, 2, 3]).readK 2).2).Replace [9, 9]) = 10 ∧
      doIPPreqContentLength 10 [9, 9]
        ((((Peeker.NewPeeker [1, 2, 3]).readK 2).2).Replace [9, 9]) < 0) :=
  content_length_adjustment [1, 2, 3] [9, 9] 2 10 (by decide)

/-- C2: after a fresh Peeker over body `b` has returned exactly the
first `k` bytes of `b` via `Read`, calling `Replace r` and draining
yields `r ++ b[k..]`, while calling `Rewind` and draining yields `b`. -/
theorem peeker_replace_splice_rewind_identity (b r : List Nat) (k : Nat)
    (hk : k ≤ b.length) :
    ((Peeker.NewPeeker b).readK k).1 = b.take k ∧
    ((((Peeker.NewPeeker b).readK k).2).Replace r).drain = r ++ b.drop k ∧
    ((((Peeker.NewPeeker b).readK k).2).Rewind).drain = b := by
  have h := Peeker.readK_NewPeeker b k hk
  refine ⟨by rw [h], ?_, ?_⟩
  · rw [h]
    rw [Peeker.drain_rewound _ rfl]
    rfl
  · rw [h]
    rw [Peeker.drain_rewound _ rfl]
    exact List.take_append_drop k b

/-- C2 witness: body `[1, 2, 3]`, two bytes read, replacement `[9]`. -/
theorem peeker_replace_splice_rewind_identity_witness :
    ((Peeker.NewPeeker [1, 2, 3]).readK 2).1 = ([1, 2, 3] : List Nat).take 2 ∧
    ((((Peeker.NewPeeker [1, 2, 3]).readK 2).2).Replace [9]).drain =
      [9] ++ ([1, 2, 3] : List Nat).drop 2 ∧
    ((((Peeker.NewPeeker [1, 2, 3]).readK 2).2).Rewind).drain = [1, 2, 3] :=
  peeker_replace_splice_rewind_identity [1, 2, 3] [9] 2 (by decide)

/-! ## Auto-TLS detection (transport/autotls.go)

A raw socket is modelled by the bytes the peer has already sent
(`stream`) together with its status once those bytes are exhausted:
still open (a further `recvfrom` would block), orderly end-of-stream
(`recvfrom` returns 0 bytes and no error), or failed with an errno
(e.g. `ECONNRESET` after a peer abort). -/

/-- Linux errno for `EAGAIN` (`EWOULDBLOCK` has the same value). -/
def EAGAIN : Nat := 11

/-- Linux errno for `EWOULDBLOCK`. -/
def EWOULDBLOCK : Nat := 11

inductive SockStatus where
  | opened
  | eofAtEnd
  | sockErr (e : Nat)
  deriving Repr, DecidableEq

structure RawConn where
  stream : List Nat
  status : SockStatus
  deriving Repr, DecidableEq

/-- One `syscall.Recvfrom(fd, buf, MSG_PEEK)` call: returns up to
`buflen` bytes without consuming them, or 0 bytes with the status-derived
error.  The connection comes back unchanged (`MSG_PEEK`). -/
def recvfromPeek (c : RawConn) (buflen : Nat) : (List Nat × Option Nat) × RawConn :=
  match c.stream with
  | _ :: _ => ((c.stream.take buflen, none), c)
  | [] =>
    match c.status with
    | .opened => (([], some EAGAIN), c)
    | .eofAtEnd => (([], none), c)
    | .sockErr e => (([], some e), c)

/-- `detectTLSRawConn`: peek up to 16 bytes into a zeroed buffer.  If
bytes arrive, the buffer is truncated to them; on `EAGAIN`/`EWOULDBLOCK`
the callback retries (on a connection that stays unreadable the
detection never completes, modelled as `none`); on any other error the
loop stops.  When no error was seen, `withTLS` is `buf[0] == 0x16` —
note that after a zero-byte end-of-stream the buffer still holds its
initial 16 zero bytes. -/
def detectTLSRawConn (c : RawConn) : Option ((Bool × Option Nat) × RawConn) :=
  match recvfromPeek c 16 with
  | ((data, err), c2) =>
    if 0 < data.length then
      some ((data.headD 0 == 0x16, none), c2)
    else if err = some EAGAIN ∨ err = some EWOULDBLOCK then
      none
    else
      match err with
      | none => some (((List.replicate 16 0).headD 0 == 0x16, none), c2)
      | some e => some ((false, some e), c2)

/-- Where a connection ends up after detection, per the `switch` in the
second locked section of `acceptWait` (plus the trailing `connAbort`). -/
inductive ConnDest where
  | toPlain
  | toEncrypted
  | abortedClosed
  | abortedErr (e : Nat)
  deriving Repr, DecidableEq

def routeAfterDetect (closed : Bool) (det : Bool × Option Nat) : ConnDest :=
  if closed then .abortedClosed
  else
    match det.2 with
    | some e => .abortedErr e
    | none => if det.1 then .toEncrypted else .toPlain

/-- C3: a connection that completes detection without error on an open
listener goes to the encrypted side iff the first peeked byte is
`0x16`, to the plain side otherwise, and the peeked bytes are not
consumed from the socket. -/
theorem autotls_classification (c : RawConn) (det : (Bool × Option Nat) × RawConn)
    (hdet : detectTLSRawConn c = some det) (hok : det.1.2 = none) :
    (routeAfterDetect false det.1 = .toEncrypted ↔ c.stream.head? = some 0x16) ∧
    (routeAfterDetect false det.1 = .toPlain ↔ ¬ c.stream.head? = some 0x16) ∧
    det.2 = c := by
  obtain ⟨stream, status⟩ := c
  cases stream with
  | cons x xs =>
    have hcalc : detectTLSRawConn ⟨x :: xs, status⟩ =
        some ((x == 0x16, none), ⟨x :: xs, status⟩) := by
      unfold detectTLSRawConn recvfromPeek
      simp
    rw [hcalc] at hdet
    obtain rfl := Option.some.inj hdet
    by_cases hx : x = 0x16
    · subst hx
      simp [routeAfterDetect]
    · simp [routeAfterDetect, hx]
  | nil =>
    cases status with
    | opened =>
      have hnone : detectTLSRawConn ⟨[], .opened⟩ = none := by
        unfold detectTLSRawConn recvfromPeek
        simp
      rw [hnone] at hdet
      exact Option.noConfusion hdet
    | eofAtEnd =>
      have hcalc : detectTLSRawConn ⟨[], .eofAtEnd⟩ =
          some ((false, none), ⟨[], .eofAtEnd⟩) := by
        unfold detectTLSRawConn recvfromPeek
        simp
      rw [hcalc] at hdet
      obtain rfl := Option.some.inj hdet
      simp [routeAfterDetect]
    | sockErr e =>
      by_cases he : e = 11
      · subst he
        have hnone : detectTLSRawConn ⟨[], .sockErr 11⟩ = none := by
          unfold detectTLSRawConn recvfromPeek
          simp [EAGAIN]
        rw [hnone] at hdet
        exact Option.noConfusion hdet
      · have hcalc : detectTLSRawConn ⟨[], .sockErr e⟩ =
            some ((false, some e), ⟨[], .sockErr e⟩) := by
          unfold detectTLSRawConn recvfromPeek
          simp [EAGAIN, EWOULDBLOCK, he]
        rw [hcalc] at hdet
        obtain rfl := Option.some.inj hdet
        simp at hok

/-- C3 witness: a TLS handshake first byte and a plain first byte. -/
theorem autotls_classification_witness :
    (routeAfterDetect false ((detectTLSRawConn
        { stream := [0x16, 3, 1], status := .opened }).get (by decide)).1 =
      .toEncrypted ↔
        ({ stream := [0x16, 3, 1], status := .opened } : RawConn).stream.head? =
          some 0x16) ∧
    (routeAfterDetect false ((detectTLSRawConn
        { stream := [0x16, 3, 1], status := .opened }).get (by decide)).1 =
      .toPlain ↔
        ¬ ({ stream := [0x16, 3, 1], status := .opened } : RawConn).stream.head? =
          some 0x16) ∧
    ((detectTLSRawConn { stream := [0x16, 3, 1], status := .opened }).get
        (by decide)).2 =
      { stream := [0x16, 3, 1], status := .opened } :=
  autotls_classification { stream := [0x16, 3, 1], status := .opened } _
    (Option.some_get _).symm (by decide)

end GoMfp

/-! ## Auto-TLS listener state (transport/autotls.go)

`autoTLSListener` keeps a `pending` set of connections under detection
and two FIFO queues (`plain`, `encrypted`).  Connections are modelled by
identifiers; each lock-protected region of the source is one step
function on the state.  `returned` and `aborted` record the connections
handed to an `Accept` caller resp. passed to `connAbort`. -/

namespace GoMfp

structure ATLState where
  closed : Bool
  pending : List Nat
  plainQ : List Nat
  encQ : List Nat
  returned : List Nat
  aborted : List Nat
  deriving Repr, DecidableEq

/-- All connections the listener ever accepted, by current region. -/
def allConns (s : ATLState) : List Nat :=
  s.pending ++ s.plainQ ++ s.encQ ++ s.returned ++ s.aborted

/-- First locked section of `acceptWait`: a connection accepted from the
parent enters `pending`, unless the listener is already closed, in which
case it is aborted at once. -/
def stepAcceptConn (s : ATLState) (c : Nat) : ATLState :=
  if s.closed then { s with aborted := s.aborted ++ [c] }
  else { s with pending := s.pending ++ [c] }

/-- Second locked section of `acceptWait` (plus the trailing
`connAbort`): the connection leaves `pending`; if the listener closed
meanwhile or detection failed it is aborted, otherwise it is pushed onto
the queue chosen by `withTLS`. -/
def stepDetectDone (s : ATLState) (c : Nat) (det : Bool × Option Nat) : ATLState :=
  let s1 := { s with pending := s.pending.erase c }
  if s.closed then { s1 with aborted := s1.aborted ++ [c] }
  else
    match det.2 with
    | some _ => { s1 with aborted := s1.aborted ++ [c] }
    | none =>
      if det.1 then { s1 with encQ := s1.encQ ++ [c] }
      else { s1 with plainQ := s1.plainQ ++ [c] }

/-- `autoTLSListenerQueue.pull`: pop the queue head, if any. -/
def queuePull (q : List Nat) : Option Nat × List Nat :=
  match q with
  | [] => (none, [])
  | c :: rest => (some c, rest)

/-- The queue inspection at the top of `accept`'s loop: a pulled
connection is returned to the caller. -/
def stepPull (s : ATLState) (encrypted : Bool) : Option Nat × ATLState :=
  if encrypted then
    match queuePull s.encQ with
    | (some c, q) => (some c, { s with encQ := q, returned := s.returned ++ [c] })
    | (none, _) => (none, s)
  else
    match queuePull s.plainQ with
    | (some c, q) => (some c, { s with plainQ := q, returned := s.returned ++ [c] })
    | (none, _) => (none, s)

/-- `close`: mark closed, abort every pending connection, purge both
queues (aborting their connections), broadcast. -/
def stepClose (s : ATLState) : ATLState :=
  { closed := true, pending := [], plainQ := [], encQ := [],
    returned := s.returned,
    aborted := s.aborted ++ s.pending ++ s.plainQ ++ s.encQ }

/-- One iteration of `accept`'s loop: pull from the chosen queue first;
with an empty queue a closed listener yields the `ListenerClosed` error,
otherwise the caller would wait or become the accepter. -/
inductive AcceptOutcome where
  | conn (c : Nat)
  | closedErr
  | becomeAccepter
  deriving Repr, DecidableEq

def acceptTry (s : ATLState) (encrypted : Bool) : AcceptOutcome × ATLState :=
  match stepPull s encrypted with
  | (some c, s2) => (.conn c, s2)
  | (none, _) => if s.closed then (.closedErr, s) else (.becomeAccepter, s)

/-- C6: after `close`, the pending set and both queues are empty, any
further `accept` on either child immediately yields the
`ListenerClosed` error, and every connection the listener ever accepted
sits exactly once in `returned ++ aborted`. -/
theorem autotls_close_no_leak (s : ATLState) (hnd : (allConns s).Nodup) :
    (stepClose s).pending = [] ∧ (stepClose s).plainQ = [] ∧ (stepClose s).encQ = [] ∧
    (∀ enc, acceptTry (stepClose s) enc = (.closedErr, stepClose s)) ∧
    (∀ c ∈ allConns s, ((stepClose s).returned ++ (stepClose s).aborted).count c = 1) := by
  refine ⟨rfl, rfl, rfl, ?_, ?_⟩
  · intro enc
    cases enc <;> rfl
  · intro c hc
    have h1 : (allConns s).count c = 1 := List.count_eq_one_of_mem hnd hc
    simp only [allConns, List.count_append, stepClose] at h1 ⊢
    omega

/-- C6 witness: a concrete open state with one connection per region. -/
theorem autotls_close_no_leak_witness :
    acceptTry (stepClose ⟨false, [1], [2], [3], [4], [5]⟩) true =
      (.closedErr, stepClose ⟨false, [1], [2], [3], [4], [5]⟩) ∧
    ((stepClose ⟨false, [1], [2], [3], [4], [5]⟩).returned ++
      (stepClose ⟨false, [1], [2], [3], [4], [5]⟩).aborted).count 2 = 1 :=
  ⟨(autotls_close_no_leak ⟨false, [1], [2], [3], [4], [5]⟩ (by decide)).2.2.2.1 true,
   (autotls_close_no_leak ⟨false, [1], [2], [3], [4], [5]⟩ (by decide)).2.2.2.2 2
     (by decide)⟩

end GoMfp

namespace GoMfp

/-- C7 counterexample: a peer that performs an orderly shutdown before
sending any byte (peek returns zero bytes at end-of-stream, no error) is
NOT removed with an error: detection reports `(withTLS = false, err =
nil)` over the still-zeroed buffer, and `acceptWait` pushes the
connection onto the plain queue. -/
theorem autotls_eof_socket_to_plain_queue :
    detectTLSRawConn { stream := [], status := .eofAtEnd } =
      some ((false, none), { stream := [], status := .eofAtEnd }) ∧
    stepDetectDone ⟨false, [7], [], [], [], []⟩ 7 (false, none) =
      ⟨false, [], [7], [], [], []⟩ := by
  constructor
  · unfold detectTLSRawConn recvfromPeek
    simp
  · rfl

/-- C7 (amended): a socket whose peek fails with an error other than
`EAGAIN`/`EWOULDBLOCK` leaves `pending` into `aborted` and is pushed
onto neither queue; any error produced by a completed detection is
necessarily different from `EAGAIN`/`EWOULDBLOCK`.  (A zero-byte
end-of-stream peek does not fit this: it completes without error and
the socket goes to the plain queue.) -/
theorem autotls_peer_error_abort (s : ATLState) (c : Nat)
    (det : Bool × Option Nat) (e : Nat) (herr : det.2 = some e)
    (hclosed : s.closed = false) (hnd : s.pending.Nodup) :
    c ∉ (stepDetectDone s c det).pending ∧
    c ∈ (stepDetectDone s c det).aborted ∧
    (stepDetectDone s c det).plainQ = s.plainQ ∧
    (stepDetectDone s c det).encQ = s.encQ ∧
    (∀ (c2 : RawConn) (b : Bool) (e2 : Nat) (c3 : RawConn),
      detectTLSRawConn c2 = some ((b, some e2), c3) →
      e2 ≠ EAGAIN ∧ e2 ≠ EWOULDBLOCK) := by
  have hstep : stepDetectDone s c det =
      { s with pending := s.pending.erase c, aborted := s.aborted ++ [c] } := by
    unfold stepDetectDone
    rw [if_neg (by simp [hclosed]), herr]
  refine ⟨?_, ?_, ?_, ?_, ?_⟩
  · rw [hstep]
    intro hmem
    exact absurd ((hnd.mem_erase_iff).mp hmem).1 (by simp)
  · rw [hstep]
    simp
  · rw [hstep]
  · rw [hstep]
  · intro c2 b e2 c3 hdet
    obtain ⟨stream, status⟩ := c2
    cases stream with
    | cons x xs =>
      have : detectTLSRawConn ⟨x :: xs, status⟩ =
          some ((x == 0x16, none), ⟨x :: xs, status⟩) := by
        unfold detectTLSRawConn recvfromPeek
        simp
      rw [this] at hdet
      simp at hdet
    | nil =>
      cases status with
      | opened =>
        have : detectTLSRawConn ⟨[], .opened⟩ = none := by
          unfold detectTLSRawConn recvfromPeek
          simp
        rw [this] at hdet
        exact Option.noConfusion hdet
      | eofAtEnd =>
        have : detectTLSRawConn ⟨[], .eofAtEnd⟩ =
            some ((false, none), ⟨[], .eofAtEnd⟩) := by
          unfold detectTLSRawConn recvfromPeek
          simp
        rw [this] at hdet
        simp at hdet
      | sockErr e3 =>
        by_cases he : e3 = 11
        · subst he
          have : detectTLSRawConn ⟨[], .sockErr 11⟩ = none := by
            unfold detectTLSRawConn recvfromPeek
            simp [EAGAIN]
          rw [this] at hdet
          exact Option.noConfusion hdet
        · have : detectTLSRawConn ⟨[], .sockErr e3⟩ =
              some ((false, some e3), ⟨[], .sockErr e3⟩) := by
            unfold detectTLSRawConn recvfromPeek
            simp [EAGAIN, EWOULDBLOCK, he]
          rw [this] at hdet
          simp at hdet
          obtain ⟨⟨_, he2⟩, _⟩ := hdet
          subst he2
          exact ⟨by simpa [EAGAIN] using he, by simpa [EWOULDBLOCK] using he⟩

/-- C7 witness: a peer abort (`ECONNRESET = 104`) on a pending socket. -/
theorem autotls_peer_error_abort_witness :
    7 ∉ (stepDetectDone ⟨false, [7], [], [], [], []⟩ 7 (false, some 104)).pending ∧
    7 ∈ (stepDetectDone ⟨false, [7], [], [], [], []⟩ 7 (false, some 104)).aborted ∧
    (stepDetectDone ⟨false, [7], [], [], [], []⟩ 7 (false, some 104)).plainQ =
      (⟨false, [7], [], [], [], []⟩ : ATLState).plainQ ∧
    (stepDetectDone ⟨false, [7], [], [], [], []⟩ 7 (false, some 104)).encQ =
      (⟨false, [7], [], [], [], []⟩ : ATLState).encQ ∧
    (∀ (c2 : RawConn) (b : Bool) (e2 : Nat) (c3 : RawConn),
      detectTLSRawConn c2 = some ((b, some e2), c3) →
      e2 ≠ EAGAIN ∧ e2 ≠ EWOULDBLOCK) :=
  autotls_peer_error_abort ⟨false, [7], [], [], [], []⟩ 7 (false, some 104) 104
    rfl rfl (by decide)

end GoMfp

/-! ## HTTP headers (net/http semantics used by proxy.go)

Go's `http.Header` is a map from canonical MIME keys to value lists.
The model is an association list; `Get`/`Del`/`Set` canonicalize their
argument exactly as `textproto.CanonicalMIMEHeaderKey` does, while the
raw map assignment `dst[k] = v` used by `httpCopyHeaders` does not. -/

namespace GoMfp

/-- RFC 7230 token characters, as accepted by
`textproto.CanonicalMIMEHeaderKey` (`validHeaderFieldByte`). -/
def isTokenChar (c : Char) : Bool :=
  (48 ≤ c.val && c.val ≤ 57) || (65 ≤ c.val && c.val ≤ 90) ||
  (97 ≤ c.val && c.val ≤ 122) ||
  c.val == 33 || c.val == 35 || c.val == 36 || c.val == 37 || c.val == 38 ||
  c.val == 39 || c.val == 42 || c.val == 43 || c.val == 45 || c.val == 46 ||
  c.val == 94 || c.val == 95 || c.val == 96 || c.val == 124 || c.val == 126

/-- Case mapping of one byte of a canonical MIME key: uppercase at the
start of a word (start of key or after a hyphen), lowercase elsewhere. -/
def canonChar (upper : Bool) (c : Char) : Char :=
  if upper && 97 ≤ c.val && c.val ≤ 122 then Char.ofNat (c.toNat - 32)
  else if !upper && 65 ≤ c.val && c.val ≤ 90 then Char.ofNat (c.toNat + 32)
  else c

def canonWalk : Bool → List Char → List Char
  | _, [] => []
  | upper, c :: rest =>
    let c2 := canonChar upper c
    c2 :: canonWalk (c2.val == 45) rest

/-- `textproto.CanonicalMIMEHeaderKey`: keys containing a non-token
byte are returned unchanged, otherwise the case of each word is
normalized. -/
def canonicalKey (s : String) : String :=
  if s.toList.all isTokenChar then String.mk (canonWalk true s.toList) else s

/-- `strings.ToLower`, restricted to its ASCII action (every string the
proxy compares case-insensitively is ASCII). -/
def asciiLower (c : Char) : Char :=
  if 65 ≤ c.val && c.val ≤ 90 then Char.ofNat (c.toNat + 32) else c

def goToLower (s : String) : String :=
  String.mk (s.toList.map asciiLower)

/-- `strings.TrimSpace`, restricted to its ASCII action. -/
def isGoSpace (c : Char) : Bool :=
  c.val == 32 || c.val == 9 || c.val == 10 || c.val == 11 ||
  c.val == 12 || c.val == 13

def trimSpace (s : String) : String :=
  String.mk (((s.toList.dropWhile isGoSpace).reverse.dropWhile isGoSpace).reverse)

/-- `strings.Split(s, ",")` on the character list. -/
def splitComma : List Char → List (List Char)
  | [] => [[]]
  | c :: rest =>
    match splitComma rest, c.val == 44 with
    | r, true => [] :: r
    | [], false => [[c]]
    | g :: gs, false => (c :: g) :: gs

def goSplitComma (s : String) : List String :=
  (splitComma s.toList).map String.mk

/-- `http.Header`: association list from keys to value lists. -/
abbrev Header := List (String × List String)

def headerFind : Header → String → Option (List String)
  | [], _ => none
  | (k, v) :: t, key => if k == key then some v else headerFind t key

/-- `http.Header.Get`: first value under the canonical key, or `""`. -/
def headerGet (h : Header) (key : String) : String :=
  match headerFind h (canonicalKey key) with
  | some (v :: _) => v
  | _ => ""

/-- `http.Header.Del`: remove the canonical key. -/
def headerDel (h : Header) (key : String) : Header :=
  h.filter (fun p => p.1 != canonicalKey key)

/-- Raw map assignment `dst[k] = v` (no canonicalization). -/
def headerAssign (h : Header) (key : String) (v : List String) : Header :=
  (key, v) :: h.filter (fun p => p.1 != key)

/-- `http.Header.Set`: assign the canonical key to a one-value list. -/
def headerSet (h : Header) (key value : String) : Header :=
  headerAssign h (canonicalKey key) [value]

/-- The loop body of `httpRemoveHopByHopHeaders`' first half: trim one
`Connection` token and, when nonempty, delete the header it names. -/
def tokenDelStep (acc : Header) (f : String) : Header :=
  let f2 := trimSpace f
  if f2 != "" then headerDel acc f2 else acc

/-- `httpRemoveHopByHopHeaders`, first half: delete every header named
by a nonempty trimmed token of the `Connection` value. -/
def connectionTokensDel (h : Header) (c : String) : Header :=
  (goSplitComma c).foldl tokenDelStep h

/-- The headers `httpRemoveHopByHopHeaders` always deletes, in source
order (`Del` canonicalizes, so the source writes `Te`). -/
def hopByHopNames : List String :=
  ["Connection", "Keep-Alive", "Proxy-Authenticate", "Proxy-Connection",
   "Proxy-Authorization", "Te", "Trailer", "Transfer-Encoding"]

/-- `proxy.httpRemoveHopByHopHeaders` (RFC 7230 §6.1). -/
def httpRemoveHopByHopHeaders (hdr : Header) : Header :=
  let hdr1 :=
    if headerGet hdr "Connection" != "" then
      connectionTokensDel hdr (headerGet hdr "Connection")
    else hdr
  hopByHopNames.foldl headerDel hdr1

/-- `proxy.httpCopyHeaders`: copy every key except (case-insensitively)
`content-length` into `dst` by raw map assignment. -/
def httpCopyHeaders (dst src : Header) : Header :=
  src.foldl
    (fun d p => if goToLower p.1 != "content-length" then headerAssign d p.1 p.2 else d)
    dst

end GoMfp

namespace GoMfp

theorem mem_headerDel {p : String × List String} {h : Header} {k : String}
    (hp : p ∈ headerDel h k) : p ∈ h ∧ p.1 ≠ canonicalKey k := by
  have hm := List.mem_filter.mp hp
  exact ⟨hm.1, by simpa using hm.2⟩

theorem mem_foldl_headerDel {p : String × List String} :
    ∀ (L : List String) (h : Header), p ∈ L.foldl headerDel h → p ∈ h := by
  intro L
  induction L with
  | nil => intro h hp; exact hp
  | cons a L ih =>
    intro h hp
    exact (mem_headerDel (ih (headerDel h a) hp)).1

theorem foldl_headerDel_absent {p : String × List String} {K : String} :
    ∀ (L : List String) (h : Header), p ∈ L.foldl headerDel h →
      K ∈ L.map canonicalKey → p.1 ≠ K := by
  intro L
  induction L with
  | nil => intro h _ hK; simp at hK
  | cons a L ih =>
    intro h hp hK
    rcases List.mem_cons.mp hK with hKa | hKL
    · subst hKa
      exact (mem_headerDel (mem_foldl_headerDel L (headerDel h a) hp)).2
    · exact ih (headerDel h a) hp hKL

theorem mem_tokenDelStep {p : String × List String} {h : Header} {f : String}
    (hp : p ∈ tokenDelStep h f) : p ∈ h := by
  unfold tokenDelStep at hp
  by_cases hf : trimSpace f = ""
  · simpa [hf] using hp
  · rw [if_pos (by simpa using hf)] at hp
    exact (mem_headerDel hp).1

theorem mem_foldl_tokenDel {p : String × List String} :
    ∀ (fs : List String) (h : Header), p ∈ fs.foldl tokenDelStep h → p ∈ h := by
  intro fs
  induction fs with
  | nil => intro h hp; exact hp
  | cons a fs ih =>
    intro h hp
    exact mem_tokenDelStep (ih (tokenDelStep h a) hp)

theorem foldl_tokenDel_absent {p : String × List String} {f : String}
    (hne : trimSpace f ≠ "") :
    ∀ (fs : List String) (h : Header), f ∈ fs → p ∈ fs.foldl tokenDelStep h →
      p.1 ≠ canonicalKey (trimSpace f) := by
  intro fs
  induction fs with
  | nil => intro h hf; simp at hf
  | cons a fs ih =>
    intro h hf hp
    rcases List.mem_cons.mp hf with rfl | hfs
    · have hp1 : p ∈ tokenDelStep h f := mem_foldl_tokenDel fs (tokenDelStep h f) hp
      unfold tokenDelStep at hp1
      rw [if_pos (by simpa using hne)] at hp1
      exact (mem_headerDel hp1).2
    · exact ih (tokenDelStep h a) hfs hp

/-- C5: after `httpRemoveHopByHopHeaders`, the header map (all of whose
keys are canonical, as `net/http` guarantees for parsed and cloned
headers) contains no header named — up to canonicalization — by the
hop-by-hop list nor by any nonempty trimmed token of the incoming
`Connection` value. -/
theorem hop_by_hop_removed (hdr : Header) (name : String)
    (hcanon : ∀ p ∈ hdr, canonicalKey p.1 = p.1)
    (hname :
      name ∈ ["Connection", "Keep-Alive", "Proxy-Authenticate",
              "Proxy-Authorization", "Proxy-Connection", "TE", "Trailer",
              "Transfer-Encoding"] ∨
      ∃ f ∈ goSplitComma (headerGet hdr "Connection"),
        trimSpace f ≠ "" ∧ canonicalKey (trimSpace f) = canonicalKey name) :
    ∀ p ∈ httpRemoveHopByHopHeaders hdr, canonicalKey p.1 ≠ canonicalKey name := by
  intro p hp
  unfold httpRemoveHopByHopHeaders at hp
  have hp1 : p ∈ (if headerGet hdr "Connection" != "" then
      connectionTokensDel hdr (headerGet hdr "Connection") else hdr) :=
    mem_foldl_headerDel hopByHopNames _ hp
  have hphdr : p ∈ hdr := by
    by_cases hc : headerGet hdr "Connection" = ""
    · simpa [hc] using hp1
    · rw [if_pos (by simpa using hc)] at hp1
      exact mem_foldl_tokenDel _ _ hp1
  have hkey : p.1 ≠ canonicalKey name := by
    rcases hname with hfix | ⟨f, hf, hne, hck⟩
    · have hmem : canonicalKey name ∈ hopByHopNames.map canonicalKey := by
        fin_cases hfix <;> decide
      exact foldl_headerDel_absent hopByHopNames _ hp hmem
    · have hcne : ¬ headerGet hdr "Connection" = "" := by
        intro heq
        rw [heq] at hf
        have hsplit : goSplitComma "" = [""] := rfl
        rw [hsplit] at hf
        have : f = "" := by simpa using hf
        exact hne (by rw [this]; rfl)
      rw [if_pos (by simpa using hcne)] at hp1
      rw [← hck]
      exact foldl_tokenDel_absent hne _ _ hf hp1
  rw [hcanon p hphdr]
  exact hkey

/-- C5 witness: a header carrying `Keep-Alive`, a `Connection`-listed
custom header and that custom header itself; the surviving
`Content-Type` entry is not the `Connection`-named `X-Foo`. -/
theorem hop_by_hop_removed_witness :
    canonicalKey (("Content-Type", ["text/plain"]) : String × List String).1 ≠
      canonicalKey "X-Foo" :=
  hop_by_hop_removed
    [("Connection", ["close, X-Foo"]), ("X-Foo", ["1"]),
     ("Keep-Alive", ["timeout=5"]), ("Content-Type", ["text/plain"])]
    "X-Foo" (by decide)
    (Or.inr ⟨" X-Foo", by constructor <;> decide⟩)
    ("Content-Type", ["text/plain"]) (by decide)

end GoMfp

/-! ## Request dispatch (cmd/mfp-proxy/proxy/proxy.go, ServeHTTP) -/

namespace GoMfp

/-- Modelled from the spec: the mapping's protocol field.  The constant
`protoIPP` is declared outside the provided sources; the spec's data
model gives `protocol: {IPP, HTTP}`. -/
inductive ProxyProto where
  | protoIPP
  | protoHTTP
  deriving Repr, DecidableEq

/-- Decimal rendering of a natural number (the `strconv.FormatInt`
and `fmt` `%d` output for nonnegative values). -/
def natDecimalAux : Nat → Nat → List Char → List Char
  | 0, _, acc => acc
  | fuel + 1, n, acc =>
    let d := Char.ofNat (48 + n % 10)
    if n < 10 then d :: acc else natDecimalAux fuel (n / 10) (d :: acc)

def natDecimal (n : Nat) : String :=
  String.mk (natDecimalAux (n + 1) n [])

/-- An HTTP response as assembled on an `http.ResponseWriter`. -/
structure HttpResponse where
  status : Nat
  headers : Header
  body : String
  deriving Repr, DecidableEq

/-- `proxy.httpNoCache`: the three cache-disabling headers. -/
def httpNoCache (h : Header) : Header :=
  headerSet (headerSet (headerSet h
    "Cache-Control" "no-cache, no-store, must-revalidate")
    "Pragma" "no-cache")
    "Expires" "0"

/-- `proxy.httpReject`: `text/plain; charset=utf-8`, no-cache headers,
the status, then the error text followed by a newline. -/
def httpReject (status : Nat) (errText : String) : HttpResponse :=
  { status := status,
    headers := httpNoCache (headerSet [] "Content-Type" "text/plain; charset=utf-8"),
    body := errText ++ "\n" }

inductive ServeAction where
  | actIPP
  | actHTTP
  | actReject (r : HttpResponse)
  deriving Repr, DecidableEq

/-- `proxy.ServeHTTP`'s dispatch: lowercase the `Content-Type` value,
then IPP pipeline / plain passthrough / `400 Bad Request`. -/
def ServeHTTP (proto : ProxyProto) (method : String) (contentType : String) :
    ServeAction :=
  let ct := goToLower contentType
  if proto = ProxyProto.protoIPP ∧ method = "POST" ∧ ct = "application/ipp" then
    .actIPP
  else if method = "GET" then
    .actHTTP
  else
    .actReject (httpReject 400 "Bad Request")

theorem ServeHTTP_eq_actIPP_iff (proto : ProxyProto) (method ct : String) :
    ServeHTTP proto method ct = .actIPP ↔
      (proto = ProxyProto.protoIPP ∧ method = "POST" ∧
        goToLower ct = "application/ipp") := by
  unfold ServeHTTP
  by_cases hc : proto = ProxyProto.protoIPP ∧ method = "POST" ∧
      goToLower ct = "application/ipp"
  · rw [if_pos hc]
    simp [hc]
  · rw [if_neg hc]
    by_cases hg : method = "GET"
    · rw [if_pos hg]
      simp [hc]
    · rw [if_neg hg]
      simp [hc]

/-- C4: the IPP pipeline runs iff the protocol is IPP, the method is
POST and the lowercased Content-Type is exactly `application/ipp`; every
GET takes the plain passthrough; anything else is answered
`400 Bad Request` with `text/plain; charset=utf-8`, the three no-cache
headers, and the error text plus newline as body. -/
theorem serve_dispatch :
    (∀ (proto : ProxyProto) (method ct : String),
      ServeHTTP proto method ct = .actIPP ↔
        (proto = ProxyProto.protoIPP ∧ method = "POST" ∧
          goToLower ct = "application/ipp")) ∧
    (∀ (proto : ProxyProto) (ct : String), ServeHTTP proto "GET" ct = .actHTTP) ∧
    (∀ (proto : ProxyProto) (method ct : String),
      ¬ (proto = ProxyProto.protoIPP ∧ method = "POST" ∧
          goToLower ct = "application/ipp") →
      method ≠ "GET" →
      ServeHTTP proto method ct = .actReject (httpReject 400 "Bad Request")) ∧
    (httpReject 400 "Bad Request").status = 400 ∧
    headerGet (httpReject 400 "Bad Request").headers "Content-Type" =
      "text/plain; charset=utf-8" ∧
    headerGet (httpReject 400 "Bad Request").headers "Cache-Control" =
      "no-cache, no-store, must-revalidate" ∧
    headerGet (httpReject 400 "Bad Request").headers "Pragma" = "no-cache" ∧
    headerGet (httpReject 400 "Bad Request").headers "Expires" = "0" ∧
    (httpReject 400 "Bad Request").body = "Bad Request" ++ "\n" := by
  refine ⟨ServeHTTP_eq_actIPP_iff, ?_, ?_, by decide, by decide, by decide,
    by decide, by decide, by decide⟩
  · intro proto ct
    unfold ServeHTTP
    rw [if_neg (by simp), if_pos rfl]
  · intro proto method ct hc hg
    unfold ServeHTTP
    rw [if_neg hc, if_neg hg]

/-- C4 witness: a POST of the wrong content type on an IPP mapping is
rejected; a GET passes through; an IPP POST enters the pipeline. -/
theorem serve_dispatch_witness :
    ServeHTTP ProxyProto.protoIPP "POST" "text/html" =
      .actReject (httpReject 400 "Bad Request") ∧
    ServeHTTP ProxyProto.protoHTTP "GET" "" = .actHTTP ∧
    (ServeHTTP ProxyProto.protoIPP "POST" "application/ipp" = .actIPP ↔
      (ProxyProto.protoIPP = ProxyProto.protoIPP ∧ "POST" = "POST" ∧
        goToLower "application/ipp" = "application/ipp")) :=
  ⟨serve_dispatch.2.2.1 ProxyProto.protoIPP "POST" "text/html" (by decide)
      (by decide),
   serve_dispatch.2.1 ProxyProto.protoHTTP "",
   serve_dispatch.1 ProxyProto.protoIPP "POST" "application/ipp"⟩

/-- C10: the lowercased Content-Type is compared byte-for-byte with
`application/ipp`: parameters or whitespace defeat the match (400),
pure case variants are accepted. -/
theorem ipp_content_type_exact_match :
    (∀ ct : String, ServeHTTP ProxyProto.protoIPP "POST" ct = .actIPP ↔
      goToLower ct = "application/ipp") ∧
    ServeHTTP ProxyProto.protoIPP "POST" "Application/IPP" = .actIPP ∧
    ServeHTTP ProxyProto.protoIPP "POST" "application/ipp; charset=utf-8" =
      .actReject (httpReject 400 "Bad Request") ∧
    ServeHTTP ProxyProto.protoIPP "POST" " application/ipp" =
      .actReject (httpReject 400 "Bad Request") := by
  refine ⟨?_, by decide, by decide, by decide⟩
  intro ct
  rw [ServeHTTP_eq_actIPP_iff]
  simp

end GoMfp

/-! ## Response headers returned to the client (doHTTP / doIPP) -/

namespace GoMfp

/-- The response-side header handling shared by `doHTTP` and `doIPP`:
remove hop-by-hop headers from the upstream response, copy the result
into the (fresh) `w.Header()` map excluding `Content-Length`, then — as
the source does — `Set` the known `Content-Length` on `rsp.Header`, the
already-copied-from upstream map.  Returns
`(client header map, upstream header map after the Set)`. -/
def doHTTPrespHeaders (rspHdr : Header) (rspCL : Int) : Header × Header :=
  let r := httpRemoveHopByHopHeaders rspHdr
  let w := httpCopyHeaders [] r
  let r2 := if 0 ≤ rspCL then headerSet r "Content-Length" (natDecimal rspCL.toNat)
            else r
  (w, r2)

/-- C9 (failing-input evaluation): for an upstream response
`{Content-Type: text/plain}` with known `ContentLength = 5`, the
`Content-Length` re-add lands on the upstream response's map, not on the
header map written to the client, which therefore lacks the header the
claim promises. -/
theorem response_content_length_dead_store :
    headerFind (doHTTPrespHeaders [("Content-Type", ["text/plain"])] 5).1
      "Content-Length" = none ∧
    headerFind (doHTTPrespHeaders [("Content-Type", ["text/plain"])] 5).2
      "Content-Length" = some ["5"] ∧
    headerFind (doHTTPrespHeaders [("Content-Type", ["text/plain"])] 5).1
      "Content-Type" = some ["text/plain"] := by
  refine ⟨?_, ?_, ?_⟩ <;> decide

end GoMfp

/-! ## Trace records of one IPP exchange (doIPPreq / doIPP / doIPPrsp)

The trace sink receives `Send(name, data)` calls; the model collects the
record names in call order.  Abstract inputs stand for the outcome of
each stage: whether the request message decoded, whether the upstream
request succeeded, how many bytes the sniffer saw versus the re-encoded
IPP length, whether the response had Content-Type `application/ipp` and
decoded.  The `magic` tag (computed by a helper outside the provided
sources) is an abstract string. -/

namespace GoMfp

/-- `fmt.Sprintf("%8.8d", n)`: zero-padded to (at least) eight digits. -/
def pad8 (n : Nat) : String :=
  let s := natDecimal n
  if s.length < 8 then String.mk (List.replicate (8 - s.length) '0') ++ s else s

/-- `fmt.Sprintf("%8.8d-%s.ipp", rqnum, goipp.Op(msg.Code))`. -/
def reqRecName (rqnum : Nat) (opName : String) : String :=
  pad8 rqnum ++ "-" ++ opName ++ ".ipp"

/-- `fmt.Sprintf("%8.8d-data.%s", rqnum, magic(data))`. -/
def dataRecName (rqnum : Nat) (magic : String) : String :=
  pad8 rqnum ++ "-data." ++ magic

/-- `fmt.Sprintf("%8.8d-%s.ipp", rqnum, goipp.Status(msg.Code))`. -/
def rspRecName (rqnum : Nat) (statusName : String) : String :=
  pad8 rqnum ++ "-" ++ statusName ++ ".ipp"

/-- The trace record names emitted by one pass through `doIPP`, in
`Send` order: `doIPPreq` sends the request record after a successful
decode; after `clnt.Do` succeeds, the sniffed trailing data (when the
sniffer saw more than the re-encoded IPP message) is sent; `doIPPrsp`
sends the response record only when the response Content-Type is
`application/ipp` and its message decodes. -/
def doIPPtrace (trace : Bool) (rqnum : Nat) (opName : String)
    (reqDecodeOk : Bool) (upstreamOk : Bool) (sniffLen ipplen : Nat)
    (magic : String) (rspIsIPP rspDecodeOk : Bool) (statusName : String) :
    List String :=
  if !reqDecodeOk then []
  else
    (if trace then [reqRecName rqnum opName] else []) ++
    if !upstreamOk then []
    else
      (if trace && decide (ipplen < sniffLen) then [dataRecName rqnum magic]
       else []) ++
      (if rspIsIPP && rspDecodeOk && trace then [rspRecName rqnum statusName]
       else [])

/-- The record sequence the claim asserts for each IPP request: one
request record, zero or one data record, one response record. -/
def traceShapeOK (l : List String) (rqnum : Nat) (opName statusName : String) :
    Prop :=
  l = [reqRecName rqnum opName, rspRecName rqnum statusName] ∨
  ∃ m, l = [reqRecName rqnum opName, dataRecName rqnum m,
            rspRecName rqnum statusName]

/-- C8 counterexample: with tracing active, a successfully decoded and
forwarded IPP request whose upstream response is not IPP (e.g.
`text/html`) emits only the request record — no response record — so
the claimed record sequence does not hold for this IPP request. -/
theorem trace_missing_response_record :
    doIPPtrace true 1 "Get-Printer-Attributes" true true 10 10 "pdf"
      false true "successful-ok" = [reqRecName 1 "Get-Printer-Attributes"] ∧
    ¬ traceShapeOK
      (doIPPtrace true 1 "Get-Printer-Attributes" true true 10 10 "pdf"
        false true "successful-ok") 1 "Get-Printer-Attributes"
      "successful-ok" := by
  constructor
  · rfl
  · intro hshape
    have hlen1 : (doIPPtrace true 1 "Get-Printer-Attributes" true true 10 10 "pdf"
        false true "successful-ok").length = 1 := rfl
    rcases hshape with h | ⟨m, h⟩
    · rw [h] at hlen1
      exact absurd hlen1 (by simp)
    · rw [h] at hlen1
      exact absurd hlen1 (by simp)

end GoMfp

namespace GoMfp

/-- C8 (amended): with tracing active, when the request decodes, the
upstream exchange succeeds, and the response has Content-Type
`application/ipp` and decodes, the emitted records are exactly one
`NNNNNNNN-<OpName>.ipp`, zero or one `NNNNNNNN-data.<magic>` (present
iff the sniffer saw bytes past the re-encoded message), and one
`NNNNNNNN-<StatusName>.ipp`, in that order. -/
theorem trace_record_order (rqnum : Nat) (opName statusName magic : String)
    (sniffLen ipplen : Nat) :
    traceShapeOK
      (doIPPtrace true rqnum opName true true sniffLen ipplen magic true true
        statusName) rqnum opName statusName := by
  unfold doIPPtrace traceShapeOK
  by_cases hlt : ipplen < sniffLen
  · right
    exact ⟨magic, by simp [hlt]⟩
  · left
    simp [hlt]

end GoMfp
